import Mathlib

/-!
# School printer-cartridge inventory: the stock-ledger accounting engine

Shallow embedding of the core of the repository:

* `inventory/services.py` — `apply_transaction`, which applies one
  `StockTransaction` to the two derived aggregate tables `GlobalStock`
  (keyed by `(cartridge_id, on_balance)`) and `BuildingStock` (keyed by
  `(building_id, cartridge_id, on_balance)`), inside one atomic unit of
  work (`@transaction.atomic`): any raised `ValidationError` rolls the
  unit back, so the observable aggregate state on failure is the input
  state.  This rollback is modelled by `apply_transaction` returning
  `Except`: the `.error` branch carries no state, the caller keeps the
  state it passed in.
* `inventory/management/commands/rebuild_stock.py` — the rebuild command:
  inside one atomic block it deletes both aggregate tables, replays every
  ledger entry in `(created_at, id)` order through `apply_transaction`
  (any failure is re-raised as a `CommandError` naming the offending
  entry id and aborts the whole block), computes a before/after diff
  (`_diff`), and in `--dry-run` mode forces a rollback at the end.

Database tables are modelled as association lists `List (κ × Int)`;
the unique constraints `uniq_global_stock_cartridge_balance` and
`uniq_building_stock_balance` correspond to the `keysNodup` invariant.
Quantities are `Int` (Python ints are unbounded; `PositiveIntegerField`
non-negativity is proved as an invariant, not assumed).
-/

namespace SchoolPrinters

/-- `StockTransaction.Type` from `inventory/models.py`: `IN` (receipt)
or `OUT` (issuance). -/
inductive TxType : Type where
  | tIN : TxType
  | tOUT : TxType
deriving DecidableEq, Repr

/-- The fields of a `StockTransaction` (`inventory/models.py`) that
`apply_transaction` and the rebuild command read: the primary key `id`,
the type, the `cartridge_id` and `building_id` foreign keys (nullable,
hence `Option`), the quantity and the `on_balance` flag.  The remaining
columns (`printer`, `issued_to`, `comment`, audit fields) are only used
for log output and never influence the aggregate state. -/
structure Tx : Type where
  id : Nat
  txType : TxType
  cartridge : Option Nat
  building : Option Nat
  qty : Int
  onBalance : Bool
deriving DecidableEq, Repr

/-- Key of a `GlobalStock` row: `(cartridge_id, on_balance)`. -/
abbrev GlobalKey : Type := Nat × Bool

/-- Key of a `BuildingStock` row: `(building_id, cartridge_id, on_balance)`. -/
abbrev BuildingKey : Type := Nat × Nat × Bool

/-- Look a key up in a table (the unique-constraint `get` of the ORM). -/
def lookupQty {κ : Type} [DecidableEq κ] : List (κ × Int) → κ → Option Int
  | [], _ => none
  | e :: rest, k => if e.1 = k then some e.2 else lookupQty rest k

/-- Overwrite the quantity stored under a key (`row.save(update_fields=["qty"])`);
a no-op when the key is absent. -/
def setQty {κ : Type} [DecidableEq κ] : List (κ × Int) → κ → Int → List (κ × Int)
  | [], _, _ => []
  | e :: rest, k, v => if e.1 = k then (e.1, v) :: rest else e :: setQty rest k v

/-- `objects.get_or_create(..., defaults={"qty": 0})`: return the table
(with a fresh `qty = 0` row appended when the key was absent) together
with the row's current quantity. -/
def getOrCreate {κ : Type} [DecidableEq κ] (t : List (κ × Int)) (k : κ) :
    List (κ × Int) × Int :=
  match lookupQty t k with
  | some q => (t, q)
  | none => (t ++ [(k, 0)], 0)

/-- The database state the engine touches: the two aggregate tables and
the (append-only, here read-only) `StockTransaction` ledger, already in
`(created_at, id)` order. -/
structure DB : Type where
  globalStock : List (GlobalKey × Int)
  buildingStock : List (BuildingKey × Int)
  ledger : List Tx
deriving DecidableEq, Repr

/-- The distinguishable failure conditions of `apply_transaction`
(`inventory/services.py` raises each as a `ValidationError` with a
distinct message). -/
inductive TxError : Type where
  | missingCartridge : TxError
  | missingBuilding : TxError
  | nonPositiveQty : TxError
  | insufficientGlobal (avail need : Int) : TxError
  | insufficientBuilding (avail need : Int) : TxError
deriving DecidableEq, Repr

/-- `StockDelta` from `inventory/services.py`: before/after quantities
returned for observability. -/
structure StockDelta : Type where
  global_before : Int
  global_after : Int
  building_before : Int
  building_after : Int
deriving DecidableEq, Repr

/-- `apply_transaction` (`inventory/services.py`, lines 20–87): validate
`cartridge`, `building`, `qty > 0`; `get_or_create` (under
`select_for_update`) the two aggregate rows with `qty = 0` defaults; for
`IN` add `tx.qty` to both; for `OUT` first check the global then the
building quantity, failing with an insufficient-stock `ValidationError`
if either is short, else subtract from both; save both rows; return the
`StockDelta`.  The `@transaction.atomic` rollback on failure is the
`.error` branch: it returns no state, so the caller's state is untouched. -/
def apply_transaction (db : DB) (tx : Tx) : Except TxError (StockDelta × DB) :=
  match tx.cartridge with
  | none => .error .missingCartridge
  | some cid =>
    match tx.building with
    | none => .error .missingBuilding
    | some bid =>
      if tx.qty ≤ 0 then .error .nonPositiveQty
      else
        let flag := tx.onBalance
        let gp := getOrCreate db.globalStock (cid, flag)
        let bp := getOrCreate db.buildingStock (bid, cid, flag)
        let gb := gp.2
        let bb := bp.2
        match tx.txType with
        | .tIN =>
          .ok (⟨gb, gb + tx.qty, bb, bb + tx.qty⟩,
            { db with
              globalStock := setQty gp.1 (cid, flag) (gb + tx.qty)
              buildingStock := setQty bp.1 (bid, cid, flag) (bb + tx.qty) })
        | .tOUT =>
          if gb < tx.qty then .error (.insufficientGlobal gb tx.qty)
          else if bb < tx.qty then .error (.insufficientBuilding bb tx.qty)
          else
            .ok (⟨gb, gb - tx.qty, bb, bb - tx.qty⟩,
              { db with
                globalStock := setQty gp.1 (cid, flag) (gb - tx.qty)
                buildingStock := setQty bp.1 (bid, cid, flag) (bb - tx.qty) })

/-- The replay loop of `rebuild_stock.py` (lines 149–179): apply each
ledger entry in order through `apply_transaction`; the first failure
aborts the whole loop as a `CommandError` carrying the offending entry's
`id` (and, rolling back the enclosing atomic block, restores the
caller's state — the `.error` branch). -/
def replay (db : DB) : List Tx → Except (Nat × TxError) DB
  | [] => .ok db
  | tx :: rest =>
    match apply_transaction db tx with
    | .error e => .error (tx.id, e)
    | .ok (_, db') => replay db' rest

/-- `DiffStats` from `rebuild_stock.py`: rows added, rows removed, rows
whose quantity changed, between two snapshots. -/
structure DiffStats : Type where
  added : Nat
  removed : Nat
  changed_qty : Nat
deriving DecidableEq, Repr

/-- `_diff` from `rebuild_stock.py` (lines 45–61) on snapshot dictionaries:
keys present only in `new` are `added`, keys present only in `old` are
`removed`, keys present in both with different quantities count as
`changed_qty`. -/
def diffStats {κ : Type} [DecidableEq κ] (old new : List (κ × Int)) : DiffStats where
  added := (new.filter (fun e => (lookupQty old e.1).isNone)).length
  removed := (old.filter (fun e => (lookupQty new e.1).isNone)).length
  changed_qty := (old.filter (fun e =>
    match lookupQty new e.1 with
    | some q => q != e.2
    | none => false)).length

/-- The rebuild report: one `DiffStats` per aggregate table. -/
structure RebuildReport : Type where
  globalDiff : DiffStats
  buildingDiff : DiffStats
deriving DecidableEq, Repr

/-- `GlobalStock.objects.all().delete()` and
`BuildingStock.objects.all().delete()` at the start of the rebuild's
atomic block. -/
def clearAggregates (db : DB) : DB :=
  { db with globalStock := [], buildingStock := [] }

/-- `Command.handle` of `rebuild_stock.py` (lines 98–264): when the
ledger is empty the command returns before touching anything (and prints
no diff, hence the `none` report); otherwise, inside one atomic block,
it clears both aggregate tables, replays the whole ledger, diffs the
old snapshots against the recomputed state, and — in dry-run mode —
forces a rollback so the caller keeps the original state while still
receiving the report. -/
def rebuild (db : DB) (dryRun : Bool) :
    Except (Nat × TxError) (Option RebuildReport × DB) :=
  if db.ledger.isEmpty then .ok (none, db)
  else
    match replay (clearAggregates db) db.ledger with
    | .error e => .error e
    | .ok db' =>
      let report : RebuildReport :=
        ⟨diffStats db.globalStock db'.globalStock,
         diffStats db.buildingStock db'.buildingStock⟩
      if dryRun then .ok (some report, db) else .ok (some report, db')

/-- States reachable from empty aggregate tables by a sequence of
successful `apply_transaction` calls (failed calls leave the observable
state unchanged, so they need no constructor). -/
inductive Reachable : DB → Prop where
  | empty (ledger : List Tx) : Reachable ⟨[], [], ledger⟩
  | step {db : DB} {tx : Tx} {d : StockDelta} {db' : DB} :
      Reachable db → apply_transaction db tx = .ok (d, db') → Reachable db'

/-- Quantity stored under a key, reading an absent row as `0` (the spec:
"row absence is equivalent to qty=0"). -/
def qtyOr0 {κ : Type} [DecidableEq κ] (t : List (κ × Int)) (k : κ) : Int :=
  (lookupQty t k).getD 0

/-- Sum of `BuildingStock.qty` over all buildings for a fixed
`(cartridge, on_balance)` pair. -/
def buildingSum (t : List (BuildingKey × Int)) (c : Nat) (fl : Bool) : Int :=
  t.foldr (fun e acc => if e.1.2.1 = c ∧ e.1.2.2 = fl then e.2 + acc else acc) 0

/-- The conservation invariant: for every `(cartridge, on_balance)` pair
the global quantity equals the sum of the per-building quantities. -/
def conserved (db : DB) : Prop :=
  ∀ c fl, qtyOr0 db.globalStock (c, fl) = buildingSum db.buildingStock c fl

/-- The non-negativity invariant: no aggregate row stores a negative
quantity. -/
def nonNeg (db : DB) : Prop :=
  (∀ e ∈ db.globalStock, 0 ≤ e.2) ∧ (∀ e ∈ db.buildingStock, 0 ≤ e.2)

/-- The tables' unique-key constraints. -/
def keysNodup {κ : Type} (t : List (κ × Int)) : Prop :=
  (t.map Prod.fst).Nodup

section TableLemmas

variable {κ : Type} [DecidableEq κ]

theorem lookupQty_mem {t : List (κ × Int)} {k : κ} {q : Int}
    (h : lookupQty t k = some q) : (k, q) ∈ t := by
  induction t with
  | nil => simp [lookupQty] at h
  | cons e rest ih =>
    by_cases hk : e.1 = k
    · simp [lookupQty, hk] at h
      exact List.mem_cons.mpr (Or.inl (Prod.ext hk.symm h.symm))
    · simp [lookupQty, hk] at h
      exact List.mem_cons.mpr (Or.inr (ih h))

theorem lookupQty_eq_none_iff {t : List (κ × Int)} {k : κ} :
    lookupQty t k = none ↔ k ∉ t.map Prod.fst := by
  induction t with
  | nil => simp [lookupQty]
  | cons e rest ih =>
    by_cases hk : e.1 = k
    · simp [lookupQty, hk]
    · simp [lookupQty, hk, ih, Ne.symm hk]

theorem lookupQty_append_single (t : List (κ × Int)) (k k' : κ) (v : Int) :
    lookupQty (t ++ [(k, v)]) k' =
      match lookupQty t k' with
      | some q => some q
      | none => if k = k' then some v else none := by
  induction t with
  | nil => simp [lookupQty]
  | cons e rest ih =>
    by_cases hk : e.1 = k'
    · simp [lookupQty, hk]
    · simp [lookupQty, hk, ih]

theorem lookupQty_setQty_self {t : List (κ × Int)} {k : κ} {q : Int} (v : Int)
    (h : lookupQty t k = some q) : lookupQty (setQty t k v) k = some v := by
  induction t with
  | nil => simp [lookupQty] at h
  | cons e rest ih =>
    by_cases hk : e.1 = k
    · simp [setQty, hk, lookupQty]
    · simp [lookupQty, hk] at h
      simp [setQty, hk, lookupQty, ih h]

theorem lookupQty_setQty_other (t : List (κ × Int)) (k k' : κ) (v : Int)
    (h : k' ≠ k) : lookupQty (setQty t k v) k' = lookupQty t k' := by
  induction t with
  | nil => simp [setQty]
  | cons e rest ih =>
    by_cases hk : e.1 = k
    · simp [setQty, hk, lookupQty, Ne.symm h]
    · by_cases hk' : e.1 = k'
      · simp [setQty, hk, lookupQty, hk', h]
      · simp [setQty, hk, lookupQty, hk', ih]

theorem mem_setQty {t : List (κ × Int)} {k : κ} {v : Int} {e : κ × Int}
    (h : e ∈ setQty t k v) : e ∈ t ∨ e = (k, v) := by
  induction t with
  | nil => simp [setQty] at h
  | cons e0 rest ih =>
    by_cases hk : e0.1 = k
    · simp [setQty, hk] at h
      rcases h with h | h
      · right; exact h
      · left; exact List.mem_cons_of_mem _ h
    · simp [setQty, hk] at h
      rcases h with h | h
      · left; rw [h]; exact List.mem_cons_self _ _
      · rcases ih h with h' | h'
        · left; exact List.mem_cons_of_mem _ h'
        · right; exact h'

theorem keys_setQty (t : List (κ × Int)) (k : κ) (v : Int) :
    (setQty t k v).map Prod.fst = t.map Prod.fst := by
  induction t with
  | nil => simp [setQty]
  | cons e rest ih =>
    by_cases hk : e.1 = k
    · simp [setQty, hk]
    · simp [setQty, hk, ih]

theorem getOrCreate_snd (t : List (κ × Int)) (k : κ) :
    (getOrCreate t k).2 = qtyOr0 t k := by
  unfold getOrCreate qtyOr0
  cases lookupQty t k <;> simp

theorem lookupQty_getOrCreate_self (t : List (κ × Int)) (k : κ) :
    lookupQty (getOrCreate t k).1 k = some (getOrCreate t k).2 := by
  unfold getOrCreate
  cases h : lookupQty t k with
  | some q => simpa using h
  | none => simp [lookupQty_append_single, h]

theorem lookupQty_getOrCreate_other (t : List (κ × Int)) (k k' : κ)
    (h : k' ≠ k) : lookupQty (getOrCreate t k).1 k' = lookupQty t k' := by
  unfold getOrCreate
  cases hl : lookupQty t k with
  | some q => simp
  | none =>
    simp only [lookupQty_append_single]
    cases lookupQty t k' with
    | some q => simp
    | none => simp [Ne.symm h]

theorem mem_getOrCreate {t : List (κ × Int)} {k : κ} {e : κ × Int}
    (h : e ∈ (getOrCreate t k).1) : e ∈ t ∨ e = (k, 0) := by
  unfold getOrCreate at h
  cases hl : lookupQty t k with
  | some q => rw [hl] at h; simpa using Or.inl h
  | none =>
    rw [hl] at h
    simpa using h

theorem keysNodup_getOrCreate {t : List (κ × Int)} (k : κ)
    (h : keysNodup t) : keysNodup (getOrCreate t k).1 := by
  unfold getOrCreate
  cases hl : lookupQty t k with
  | some q => simpa using h
  | none =>
    have hk : k ∉ t.map Prod.fst := lookupQty_eq_none_iff.mp hl
    unfold keysNodup at h ⊢
    simp only [List.map_append, List.map_cons, List.map_nil]
    rw [List.nodup_append]
    refine ⟨h, List.nodup_singleton _, ?_⟩
    intro a ha hb
    simp only [List.mem_singleton] at hb
    subst hb
    exact hk ha

theorem keysNodup_setQty {t : List (κ × Int)} (k : κ) (v : Int)
    (h : keysNodup t) : keysNodup (setQty t k v) := by
  unfold keysNodup at h ⊢
  rw [keys_setQty]
  exact h

theorem lookupQty_of_nodup_mem {t : List (κ × Int)} {k : κ} {q : Int}
    (hn : keysNodup t) (hm : (k, q) ∈ t) : lookupQty t k = some q := by
  induction t with
  | nil => simp at hm
  | cons e rest ih =>
    unfold keysNodup at hn
    simp only [List.map_cons, List.nodup_cons] at hn
    rcases List.mem_cons.mp hm with h | h
    · rw [← h]
      simp [lookupQty]
    · have hne : e.1 ≠ k := by
        intro hk
        exact hn.1 (hk ▸ (List.mem_map.mpr ⟨(k, q), h, rfl⟩))
      simp [lookupQty, hne]
      exact ih hn.2 h

end TableLemmas

/-- Characterization of a successful `apply_transaction` call: the
validations passed, the ledger is untouched, and each aggregate table is
the `setQty`-after-`getOrCreate` update of the input table at the
transaction's key, with the quantity moved up (`IN`) or down (`OUT`, the
two insufficiency checks having passed). -/
theorem apply_transaction_ok {db : DB} {tx : Tx} {d : StockDelta} {db' : DB}
    (h : apply_transaction db tx = .ok (d, db')) :
    ∃ c b, tx.cartridge = some c ∧ tx.building = some b ∧ 0 < tx.qty ∧
      db'.ledger = db.ledger ∧
      ((tx.txType = .tIN ∧
          db'.globalStock =
            setQty (getOrCreate db.globalStock (c, tx.onBalance)).1 (c, tx.onBalance)
              (qtyOr0 db.globalStock (c, tx.onBalance) + tx.qty) ∧
          db'.buildingStock =
            setQty (getOrCreate db.buildingStock (b, c, tx.onBalance)).1 (b, c, tx.onBalance)
              (qtyOr0 db.buildingStock (b, c, tx.onBalance) + tx.qty) ∧
          d = ⟨qtyOr0 db.globalStock (c, tx.onBalance),
               qtyOr0 db.globalStock (c, tx.onBalance) + tx.qty,
               qtyOr0 db.buildingStock (b, c, tx.onBalance),
               qtyOr0 db.buildingStock (b, c, tx.onBalance) + tx.qty⟩) ∨
       (tx.txType = .tOUT ∧
          tx.qty ≤ qtyOr0 db.globalStock (c, tx.onBalance) ∧
          tx.qty ≤ qtyOr0 db.buildingStock (b, c, tx.onBalance) ∧
          db'.globalStock =
            setQty (getOrCreate db.globalStock (c, tx.onBalance)).1 (c, tx.onBalance)
              (qtyOr0 db.globalStock (c, tx.onBalance) - tx.qty) ∧
          db'.buildingStock =
            setQty (getOrCreate db.buildingStock (b, c, tx.onBalance)).1 (b, c, tx.onBalance)
              (qtyOr0 db.buildingStock (b, c, tx.onBalance) - tx.qty) ∧
          d = ⟨qtyOr0 db.globalStock (c, tx.onBalance),
               qtyOr0 db.globalStock (c, tx.onBalance) - tx.qty,
               qtyOr0 db.buildingStock (b, c, tx.onBalance),
               qtyOr0 db.buildingStock (b, c, tx.onBalance) - tx.qty⟩)) := by
  rcases hc : tx.cartridge with _ | c
  · simp [apply_transaction, hc] at h
  rcases hb : tx.building with _ | b
  · simp [apply_transaction, hc, hb] at h
  by_cases hq : tx.qty ≤ 0
  · simp [apply_transaction, hc, hb, hq] at h
  rcases ht : tx.txType with _ | _
  · simp only [apply_transaction, hc, hb, hq, if_false, ht] at h
    rw [Except.ok.injEq, Prod.mk.injEq] at h
    obtain ⟨hd, hdb⟩ := h
    subst hdb
    subst hd
    exact ⟨c, b, rfl, rfl, by omega, rfl,
      Or.inl ⟨rfl, by simp [getOrCreate_snd], by simp [getOrCreate_snd],
        by simp [getOrCreate_snd]⟩⟩
  · simp only [apply_transaction, hc, hb, hq, if_false, ht] at h
    by_cases hg : (getOrCreate db.globalStock (c, tx.onBalance)).2 < tx.qty
    · rw [if_pos hg] at h
      exact absurd h (by simp)
    rw [if_neg hg] at h
    by_cases hbq : (getOrCreate db.buildingStock (b, c, tx.onBalance)).2 < tx.qty
    · rw [if_pos hbq] at h
      exact absurd h (by simp)
    rw [if_neg hbq] at h
    rw [Except.ok.injEq, Prod.mk.injEq] at h
    rw [getOrCreate_snd] at hg hbq
    obtain ⟨hd, hdb⟩ := h
    subst hdb
    subst hd
    exact ⟨c, b, rfl, rfl, by omega, rfl,
      Or.inr ⟨rfl, by omega, by omega, by simp [getOrCreate_snd],
        by simp [getOrCreate_snd], by simp [getOrCreate_snd]⟩⟩

section SumLemmas

theorem qtyOr0_setQty_self {t : List (GlobalKey × Int)} {k : GlobalKey} {q : Int}
    (v : Int) (h : lookupQty t k = some q) : qtyOr0 (setQty t k v) k = v := by
  unfold qtyOr0
  rw [lookupQty_setQty_self v h]
  rfl

theorem qtyOr0_setQty_other (t : List (GlobalKey × Int)) (k k' : GlobalKey)
    (v : Int) (h : k' ≠ k) : qtyOr0 (setQty t k v) k' = qtyOr0 t k' := by
  unfold qtyOr0
  rw [lookupQty_setQty_other t k k' v h]

theorem qtyOr0_getOrCreate_other (t : List (GlobalKey × Int)) (k k' : GlobalKey)
    (h : k' ≠ k) : qtyOr0 (getOrCreate t k).1 k' = qtyOr0 t k' := by
  unfold qtyOr0
  rw [lookupQty_getOrCreate_other t k k' h]

theorem buildingSum_getOrCreate (t : List (BuildingKey × Int)) (k : BuildingKey)
    (c : Nat) (fl : Bool) : buildingSum (getOrCreate t k).1 c fl = buildingSum t c fl := by
  unfold getOrCreate
  cases lookupQty t k with
  | some q => simp
  | none =>
    simp only
    unfold buildingSum
    rw [List.foldr_append]
    simp

theorem buildingSum_setQty {t : List (BuildingKey × Int)} {k : BuildingKey} {q : Int}
    (v : Int) (c : Nat) (fl : Bool) (h : lookupQty t k = some q) :
    buildingSum (setQty t k v) c fl =
      if k.2.1 = c ∧ k.2.2 = fl then buildingSum t c fl + (v - q)
      else buildingSum t c fl := by
  induction t with
  | nil => simp [lookupQty] at h
  | cons e rest ih =>
    obtain ⟨ek, ev⟩ := e
    by_cases hk : ek = k
    · subst hk
      have hv : ev = q := by simpa [lookupQty] using h
      subst hv
      have hset : setQty ((ek, ev) :: rest) ek v = (ek, v) :: rest := by
        simp [setQty]
      rw [hset]
      unfold buildingSum
      simp only [List.foldr_cons]
      split_ifs <;> ring
    · have hrest : lookupQty rest k = some q := by simpa [lookupQty, hk] using h
      have hset : setQty ((ek, ev) :: rest) k v = (ek, ev) :: setQty rest k v := by
        simp [setQty, hk]
      rw [hset]
      have ihr := ih hrest
      unfold buildingSum at ihr ⊢
      simp only [List.foldr_cons]
      rw [ihr]
      split_ifs <;> ring

end SumLemmas

/-- One successful `apply_transaction` call preserves the conservation
invariant: the global quantity and the per-building sum for the touched
`(cartridge, on_balance)` pair move by the same amount, and every other
pair is untouched. -/
theorem conserved_apply_transaction {db : DB} {tx : Tx} {d : StockDelta} {db' : DB}
    (hcons : conserved db) (h : apply_transaction db tx = .ok (d, db')) :
    conserved db' := by
  obtain ⟨c, b, hc, hb, hq, hled, hcase⟩ := apply_transaction_ok h
  intro cc ffl
  have hglook : lookupQty (getOrCreate db.globalStock (c, tx.onBalance)).1
      (c, tx.onBalance) = some (qtyOr0 db.globalStock (c, tx.onBalance)) := by
    rw [lookupQty_getOrCreate_self, getOrCreate_snd]
  have hblook : lookupQty (getOrCreate db.buildingStock (b, c, tx.onBalance)).1
      (b, c, tx.onBalance) = some (qtyOr0 db.buildingStock (b, c, tx.onBalance)) := by
    rw [lookupQty_getOrCreate_self, getOrCreate_snd]
  rcases hcase with ⟨_, hg, hbs, _⟩ | ⟨_, _, _, hg, hbs, _⟩ <;>
  · rw [hg, hbs]
    by_cases hkey : (cc, ffl) = ((c, tx.onBalance) : GlobalKey)
    · have h1 : cc = c := congrArg Prod.fst hkey
      have h2 : ffl = tx.onBalance := congrArg Prod.snd hkey
      rw [h1, h2]
      rw [qtyOr0_setQty_self _ hglook]
      rw [buildingSum_setQty _ _ _ hblook]
      rw [if_pos ⟨rfl, rfl⟩, buildingSum_getOrCreate]
      have := hcons c tx.onBalance
      omega
    · rw [qtyOr0_setQty_other _ _ _ _ hkey]
      rw [qtyOr0_getOrCreate_other _ _ _ hkey]
      rw [buildingSum_setQty _ _ _ hblook]
      rw [if_neg (fun hcontra => hkey (Prod.ext hcontra.1.symm hcontra.2.symm))]
      rw [buildingSum_getOrCreate]
      exact hcons cc ffl

theorem nonNeg_table_update {κ : Type} [DecidableEq κ] {t : List (κ × Int)}
    {k : κ} {v : Int} (ht : ∀ e ∈ t, 0 ≤ e.2) (hv : 0 ≤ v) :
    ∀ e ∈ setQty (getOrCreate t k).1 k v, 0 ≤ e.2 := by
  intro e he
  rcases mem_setQty he with he' | he'
  · rcases mem_getOrCreate he' with h2 | h2
    · exact ht e h2
    · rw [h2]
  · rw [he']; exact hv

theorem qtyOr0_nonneg {κ : Type} [DecidableEq κ] {t : List (κ × Int)}
    (ht : ∀ e ∈ t, 0 ≤ e.2) (k : κ) : 0 ≤ qtyOr0 t k := by
  unfold qtyOr0
  cases hl : lookupQty t k with
  | none => simp
  | some q => simpa using ht _ (lookupQty_mem hl)

/-- One successful `apply_transaction` call preserves non-negativity:
`IN` adds a positive amount, `OUT` is guarded by the two `< qty` checks. -/
theorem nonNeg_apply_transaction {db : DB} {tx : Tx} {d : StockDelta} {db' : DB}
    (hnn : nonNeg db) (h : apply_transaction db tx = .ok (d, db')) : nonNeg db' := by
  obtain ⟨c, b, hc, hb, hq, hled, hcase⟩ := apply_transaction_ok h
  have hg0 : 0 ≤ qtyOr0 db.globalStock (c, tx.onBalance) := qtyOr0_nonneg hnn.1 _
  have hb0 : 0 ≤ qtyOr0 db.buildingStock (b, c, tx.onBalance) := qtyOr0_nonneg hnn.2 _
  rcases hcase with ⟨_, hg, hbs, _⟩ | ⟨_, hge, hbe, hg, hbs, _⟩ <;>
    exact ⟨by rw [hg]; exact nonNeg_table_update hnn.1 (by omega),
           by rw [hbs]; exact nonNeg_table_update hnn.2 (by omega)⟩

/-- Any state reachable by successful `apply_transaction` calls from
empty aggregates satisfies the conservation invariant. -/
theorem reachable_conserved {db : DB} (h : Reachable db) : conserved db := by
  induction h with
  | empty ledger => exact fun c fl => rfl
  | step hr happ ih => exact conserved_apply_transaction ih happ

/-- Any state reachable by successful `apply_transaction` calls from
empty aggregates satisfies the non-negativity invariant. -/
theorem reachable_nonNeg {db : DB} (h : Reachable db) : nonNeg db := by
  induction h with
  | empty ledger => exact ⟨by simp, by simp⟩
  | step hr happ ih => exact nonNeg_apply_transaction ih happ

theorem keysNodup_apply_transaction {db : DB} {tx : Tx} {d : StockDelta} {db' : DB}
    (hnd : keysNodup db.globalStock ∧ keysNodup db.buildingStock)
    (h : apply_transaction db tx = .ok (d, db')) :
    keysNodup db'.globalStock ∧ keysNodup db'.buildingStock := by
  obtain ⟨c, b, hc, hb, hq, hled, hcase⟩ := apply_transaction_ok h
  rcases hcase with ⟨_, hg, hbs, _⟩ | ⟨_, _, _, hg, hbs, _⟩ <;>
    exact ⟨by rw [hg]; exact keysNodup_setQty _ _ (keysNodup_getOrCreate _ hnd.1),
           by rw [hbs]; exact keysNodup_setQty _ _ (keysNodup_getOrCreate _ hnd.2)⟩

theorem reachable_keysNodup {db : DB} (h : Reachable db) :
    keysNodup db.globalStock ∧ keysNodup db.buildingStock := by
  induction h with
  | empty ledger => exact ⟨List.nodup_nil, List.nodup_nil⟩
  | step hr happ ih => exact keysNodup_apply_transaction ih happ

/-- A successful replay starting from a reachable state ends in a
reachable state. -/
theorem reachable_replay {L : List Tx} {s d : DB}
    (hs : Reachable s) (h : replay s L = .ok d) : Reachable d := by
  induction L generalizing s with
  | nil =>
    simp only [replay, Except.ok.injEq] at h
    exact h ▸ hs
  | cons tx rest ih =>
    simp only [replay] at h
    cases happ : apply_transaction s tx with
    | error e => rw [happ] at h; exact absurd h (by simp)
    | ok p =>
      rw [happ] at h
      exact ih (Reachable.step hs (show apply_transaction s tx = .ok (p.1, p.2) by
        rw [happ])) h

theorem replay_ledger_eq {L : List Tx} {s d : DB} (h : replay s L = .ok d) :
    d.ledger = s.ledger := by
  induction L generalizing s with
  | nil =>
    simp only [replay, Except.ok.injEq] at h
    rw [← h]
  | cons tx rest ih =>
    simp only [replay] at h
    cases happ : apply_transaction s tx with
    | error e => rw [happ] at h; exact absurd h (by simp)
    | ok p =>
      rw [happ] at h
      obtain ⟨c, b, _, _, _, hled, _⟩ :=
        apply_transaction_ok (show apply_transaction s tx = .ok (p.1, p.2) by rw [happ])
      rw [ih h, hled]

/-- Inversion of a non-trivial successful rebuild: the ledger was
non-empty, the replay from cleared aggregates succeeded, the report
diffs the old snapshots against the recomputed state, and the resulting
state is the recomputed one (live) or the untouched original (dry run). -/
theorem rebuild_ok_inv {db : DB} {dr : Bool} {r : RebuildReport} {db' : DB}
    (h : rebuild db dr = .ok (some r, db')) :
    db.ledger ≠ [] ∧ ∃ d0, replay (clearAggregates db) db.ledger = .ok d0 ∧
      r = ⟨diffStats db.globalStock d0.globalStock,
           diffStats db.buildingStock d0.buildingStock⟩ ∧
      (dr = true → db' = db) ∧ (dr = false → db' = d0) := by
  unfold rebuild at h
  by_cases hemp : db.ledger.isEmpty
  · rw [if_pos hemp] at h
    exact absurd h (by simp)
  · rw [if_neg hemp] at h
    cases hrep : replay (clearAggregates db) db.ledger with
    | error e => rw [hrep] at h; exact absurd h (by simp)
    | ok d0 =>
      rw [hrep] at h
      have hne : db.ledger ≠ [] := by simpa [List.isEmpty_iff] using hemp
      cases dr with
      | false =>
        have h' : (Except.ok (some (⟨diffStats db.globalStock d0.globalStock,
            diffStats db.buildingStock d0.buildingStock⟩ : RebuildReport), d0) :
            Except (Nat × TxError) (Option RebuildReport × DB)) = .ok (some r, db') := h
        rw [Except.ok.injEq, Prod.mk.injEq, Option.some.injEq] at h'
        exact ⟨hne, d0, rfl, h'.1.symm, by simp, fun _ => h'.2.symm⟩
      | true =>
        have h' : (Except.ok (some (⟨diffStats db.globalStock d0.globalStock,
            diffStats db.buildingStock d0.buildingStock⟩ : RebuildReport), db) :
            Except (Nat × TxError) (Option RebuildReport × DB)) = .ok (some r, db') := h
        rw [Except.ok.injEq, Prod.mk.injEq, Option.some.injEq] at h'
        exact ⟨hne, d0, rfl, h'.1.symm, fun _ => h'.2.symm, by simp⟩

/-- **C1** — Conservation invariant: for every `(cartridge, on_balance)`
pair, after any sequence of successful `apply_transaction` calls starting
from empty aggregates, the `GlobalStock` quantity equals the sum of the
`BuildingStock` quantities over all buildings for that pair
(`conserved`), and the same holds for the state produced by a completed
(non-dry-run, report-producing) rebuild. -/
theorem C1_conservation_invariant :
    (∀ db : DB, Reachable db → conserved db) ∧
    (∀ (db : DB) (r : RebuildReport) (db' : DB),
      rebuild db false = .ok (some r, db') → conserved db') := by
  refine ⟨fun db h => reachable_conserved h, ?_⟩
  intro db r db' h
  obtain ⟨hne, d0, hrep, hr, _, hdb'⟩ := rebuild_ok_inv h
  rw [hdb' rfl]
  exact reachable_conserved (reachable_replay (Reachable.empty db.ledger) hrep)

theorem C1_conservation_invariant_witness :
    conserved ⟨[((1, false), 10)], [((1, 1, false), 10)], []⟩ :=
  C1_conservation_invariant.1 _
    (@Reachable.step ⟨[], [], []⟩ ⟨1, .tIN, some 1, some 1, 10, false⟩
      ⟨0, 10, 0, 10⟩ ⟨[((1, false), 10)], [((1, 1, false), 10)], []⟩
      (Reachable.empty []) rfl)

/-- **C2** — Non-negativity invariant: under any sequence of
`apply_transaction` calls starting from empty aggregates, no
`GlobalStock` or `BuildingStock` row's quantity is ever negative at any
observable point (failed calls roll back and leave the observable state
unchanged, so reachability by successful calls covers every observable
state). -/
theorem C2_non_negativity :
    ∀ db : DB, Reachable db → nonNeg db :=
  fun _ h => reachable_nonNeg h

theorem C2_non_negativity_witness :
    nonNeg ⟨[((1, false), 10)], [((1, 1, false), 10)], []⟩ :=
  C2_non_negativity _
    (@Reachable.step ⟨[], [], []⟩ ⟨1, .tIN, some 1, some 1, 10, false⟩
      ⟨0, 10, 0, 10⟩ ⟨[((1, false), 10)], [((1, 1, false), 10)], []⟩
      (Reachable.empty []) rfl)

theorem lookupQty_update_self {κ : Type} [DecidableEq κ] (t : List (κ × Int))
    (k : κ) (v : Int) : lookupQty (setQty (getOrCreate t k).1 k v) k = some v :=
  lookupQty_setQty_self v (lookupQty_getOrCreate_self t k)

theorem lookupQty_update_other {κ : Type} [DecidableEq κ] (t : List (κ × Int))
    (k k' : κ) (v : Int) (h : k' ≠ k) :
    lookupQty (setQty (getOrCreate t k).1 k v) k' = lookupQty t k' := by
  rw [lookupQty_setQty_other _ _ _ _ h, lookupQty_getOrCreate_other _ _ _ h]

/-- Evaluation of `apply_transaction` on a field-valid `OUT` transaction:
the result is decided by the two insufficiency checks, global first. -/
theorem apply_transaction_out_eq (db : DB) (tx : Tx) (c b : Nat)
    (hc : tx.cartridge = some c) (hb : tx.building = some b)
    (ht : tx.txType = .tOUT) (hq : 0 < tx.qty) :
    apply_transaction db tx =
      (if qtyOr0 db.globalStock (c, tx.onBalance) < tx.qty then
        .error (.insufficientGlobal (qtyOr0 db.globalStock (c, tx.onBalance)) tx.qty)
      else if qtyOr0 db.buildingStock (b, c, tx.onBalance) < tx.qty then
        .error (.insufficientBuilding (qtyOr0 db.buildingStock (b, c, tx.onBalance)) tx.qty)
      else
        .ok (⟨qtyOr0 db.globalStock (c, tx.onBalance),
              qtyOr0 db.globalStock (c, tx.onBalance) - tx.qty,
              qtyOr0 db.buildingStock (b, c, tx.onBalance),
              qtyOr0 db.buildingStock (b, c, tx.onBalance) - tx.qty⟩,
          { db with
            globalStock := setQty (getOrCreate db.globalStock (c, tx.onBalance)).1
              (c, tx.onBalance) (qtyOr0 db.globalStock (c, tx.onBalance) - tx.qty)
            buildingStock := setQty (getOrCreate db.buildingStock (b, c, tx.onBalance)).1
              (b, c, tx.onBalance)
              (qtyOr0 db.buildingStock (b, c, tx.onBalance) - tx.qty) })) := by
  have hnle : ¬tx.qty ≤ 0 := by omega
  simp only [apply_transaction, hc, hb, ht, if_neg hnle, getOrCreate_snd]

/-- Evaluation of `apply_transaction` on a field-valid `IN` transaction:
it always succeeds and adds `tx.qty` to both aggregate rows. -/
theorem apply_transaction_in_eq (db : DB) (tx : Tx) (c b : Nat)
    (hc : tx.cartridge = some c) (hb : tx.building = some b)
    (ht : tx.txType = .tIN) (hq : 0 < tx.qty) :
    apply_transaction db tx =
      .ok (⟨qtyOr0 db.globalStock (c, tx.onBalance),
            qtyOr0 db.globalStock (c, tx.onBalance) + tx.qty,
            qtyOr0 db.buildingStock (b, c, tx.onBalance),
            qtyOr0 db.buildingStock (b, c, tx.onBalance) + tx.qty⟩,
        { db with
          globalStock := setQty (getOrCreate db.globalStock (c, tx.onBalance)).1
            (c, tx.onBalance) (qtyOr0 db.globalStock (c, tx.onBalance) + tx.qty)
          buildingStock := setQty (getOrCreate db.buildingStock (b, c, tx.onBalance)).1
            (b, c, tx.onBalance)
            (qtyOr0 db.buildingStock (b, c, tx.onBalance) + tx.qty) }) := by
  have hnle : ¬tx.qty ≤ 0 := by omega
  simp only [apply_transaction, hc, hb, ht, if_neg hnle, getOrCreate_snd]

/-- **C3** — `OUT` semantics: a field-valid `OUT` transaction fails with
an insufficient-stock error precisely when the global or the building
quantity is below `tx.qty` (the global check runs first); the `.error`
result carries no state, i.e. the atomic unit rolls back and neither
aggregate row is changed — in particular a building-level failure leaves
the global row undecremented.  When both checks pass, `tx.qty` is
subtracted from both rows. -/
theorem C3_out_insufficient_stock (db : DB) (tx : Tx) (c b : Nat)
    (hc : tx.cartridge = some c) (hb : tx.building = some b)
    (ht : tx.txType = .tOUT) (hq : 0 < tx.qty) :
    (qtyOr0 db.globalStock (c, tx.onBalance) < tx.qty →
      apply_transaction db tx =
        .error (.insufficientGlobal (qtyOr0 db.globalStock (c, tx.onBalance)) tx.qty)) ∧
    (tx.qty ≤ qtyOr0 db.globalStock (c, tx.onBalance) →
      qtyOr0 db.buildingStock (b, c, tx.onBalance) < tx.qty →
      apply_transaction db tx =
        .error (.insufficientBuilding (qtyOr0 db.buildingStock (b, c, tx.onBalance)) tx.qty)) ∧
    (tx.qty ≤ qtyOr0 db.globalStock (c, tx.onBalance) →
      tx.qty ≤ qtyOr0 db.buildingStock (b, c, tx.onBalance) →
      ∃ db', apply_transaction db tx =
        .ok (⟨qtyOr0 db.globalStock (c, tx.onBalance),
              qtyOr0 db.globalStock (c, tx.onBalance) - tx.qty,
              qtyOr0 db.buildingStock (b, c, tx.onBalance),
              qtyOr0 db.buildingStock (b, c, tx.onBalance) - tx.qty⟩, db') ∧
        qtyOr0 db'.globalStock (c, tx.onBalance) =
          qtyOr0 db.globalStock (c, tx.onBalance) - tx.qty ∧
        qtyOr0 db'.buildingStock (b, c, tx.onBalance) =
          qtyOr0 db.buildingStock (b, c, tx.onBalance) - tx.qty) := by
  rw [apply_transaction_out_eq db tx c b hc hb ht hq]
  refine ⟨fun hg => by rw [if_pos hg], fun hg hbq => ?_, fun hg hbq => ?_⟩
  · rw [if_neg (by omega), if_pos hbq]
  · rw [if_neg (by omega), if_neg (by omega)]
    refine ⟨_, rfl, ?_, ?_⟩
    · unfold qtyOr0
      rw [lookupQty_update_self]
      rfl
    · unfold qtyOr0
      rw [lookupQty_update_self]
      rfl

theorem C3_out_insufficient_stock_witness :
    apply_transaction ⟨[((1, false), 5)], [((1, 1, false), 3)], []⟩
      ⟨2, .tOUT, some 1, some 1, 4, false⟩ =
      .error (.insufficientBuilding 3 4) ∧
    qtyOr0 [((1, false), 5)] ((1 : Nat), false) = 5 ∧
    qtyOr0 [((1, 1, false), 3)] ((1 : Nat), (1 : Nat), false) = 3 :=
  ⟨(C3_out_insufficient_stock ⟨[((1, false), 5)], [((1, 1, false), 3)], []⟩
      ⟨2, .tOUT, some 1, some 1, 4, false⟩ 1 1 rfl rfl rfl (by decide)).2.1
      (by decide) (by decide),
   rfl, rfl⟩

/-- **C4** — `IN` semantics: a field-valid `IN` transaction always
succeeds (no upper bound), adding `tx.qty` to both the `GlobalStock`
row for `(cartridge, on_balance)` and the `BuildingStock` row for
`(building, cartridge, on_balance)`, each read as `0` when absent
(`get_or_create` with `qty = 0`). -/
theorem C4_in_always_succeeds (db : DB) (tx : Tx) (c b : Nat)
    (hc : tx.cartridge = some c) (hb : tx.building = some b)
    (ht : tx.txType = .tIN) (hq : 0 < tx.qty) :
    ∃ db', apply_transaction db tx =
      .ok (⟨qtyOr0 db.globalStock (c, tx.onBalance),
            qtyOr0 db.globalStock (c, tx.onBalance) + tx.qty,
            qtyOr0 db.buildingStock (b, c, tx.onBalance),
            qtyOr0 db.buildingStock (b, c, tx.onBalance) + tx.qty⟩, db') ∧
      qtyOr0 db'.globalStock (c, tx.onBalance) =
        qtyOr0 db.globalStock (c, tx.onBalance) + tx.qty ∧
      qtyOr0 db'.buildingStock (b, c, tx.onBalance) =
        qtyOr0 db.buildingStock (b, c, tx.onBalance) + tx.qty := by
  rw [apply_transaction_in_eq db tx c b hc hb ht hq]
  refine ⟨_, rfl, ?_, ?_⟩
  · unfold qtyOr0
    rw [lookupQty_update_self]
    rfl
  · unfold qtyOr0
    rw [lookupQty_update_self]
    rfl

theorem C4_in_always_succeeds_witness :
    ∃ db', apply_transaction ⟨[], [], []⟩ ⟨1, .tIN, some 1, some 1, 10, false⟩ =
      .ok (⟨0, 10, 0, 10⟩, db') ∧
      qtyOr0 db'.globalStock ((1 : Nat), false) = 10 ∧
      qtyOr0 db'.buildingStock ((1 : Nat), (1 : Nat), false) = 10 :=
  C4_in_always_succeeds ⟨[], [], []⟩ ⟨1, .tIN, some 1, some 1, 10, false⟩ 1 1
    rfl rfl rfl (by decide)

/-- **C5** — Validation failures: whenever the transaction's cartridge is
missing, its building is missing, or its quantity is non-positive,
`apply_transaction` fails with one of the three distinguishable
field-validation errors (each a `ValidationError` in the source, raised
before any `get_or_create`), and the `.error` result carries no state:
no aggregate row is created or mutated. -/
theorem C5_validation_errors (db : DB) (tx : Tx)
    (h : tx.cartridge = none ∨ tx.building = none ∨ tx.qty ≤ 0) :
    ∃ e, apply_transaction db tx = .error e ∧
      (e = .missingCartridge ∨ e = .missingBuilding ∨ e = .nonPositiveQty) := by
  rcases hc : tx.cartridge with _ | c
  · exact ⟨.missingCartridge, by simp [apply_transaction, hc], Or.inl rfl⟩
  rcases hb : tx.building with _ | b
  · exact ⟨.missingBuilding, by simp [apply_transaction, hc, hb], Or.inr (Or.inl rfl)⟩
  have hq : tx.qty ≤ 0 := by
    rcases h with h | h | h
    · rw [hc] at h; exact absurd h (by simp)
    · rw [hb] at h; exact absurd h (by simp)
    · exact h
  exact ⟨.nonPositiveQty, by simp [apply_transaction, hc, hb, hq], Or.inr (Or.inr rfl)⟩

theorem C5_validation_errors_witness :
    ∃ e, apply_transaction ⟨[], [], []⟩ ⟨3, .tIN, none, some 1, 5, false⟩ = .error e ∧
      (e = .missingCartridge ∨ e = .missingBuilding ∨ e = .nonPositiveQty) :=
  C5_validation_errors ⟨[], [], []⟩ ⟨3, .tIN, none, some 1, 5, false⟩ (Or.inl rfl)

/-- **C10** — Frame property: a successful `apply_transaction` call
modifies at most the `GlobalStock` row keyed by
`(tx.cartridge, tx.on_balance)` and the `BuildingStock` row keyed by
`(tx.building, tx.cartridge, tx.on_balance)`; both touched rows exist
afterwards (created via `get_or_create` with `qty = 0` when absent),
every other row of both tables keeps its exact quantity, the ledger is
untouched, and no existing row is ever deleted — even an `OUT` that
brings a quantity to `0` leaves the row in place. -/
theorem C10_frame_property (db : DB) (tx : Tx) (d : StockDelta) (db' : DB)
    (h : apply_transaction db tx = .ok (d, db')) :
    ∃ c b, tx.cartridge = some c ∧ tx.building = some b ∧
      db'.ledger = db.ledger ∧
      (∀ k : GlobalKey, k ≠ (c, tx.onBalance) →
        lookupQty db'.globalStock k = lookupQty db.globalStock k) ∧
      (∀ k : BuildingKey, k ≠ (b, c, tx.onBalance) →
        lookupQty db'.buildingStock k = lookupQty db.buildingStock k) ∧
      (lookupQty db'.globalStock (c, tx.onBalance)).isSome ∧
      (lookupQty db'.buildingStock (b, c, tx.onBalance)).isSome ∧
      (∀ k : GlobalKey, (lookupQty db.globalStock k).isSome →
        (lookupQty db'.globalStock k).isSome) ∧
      (∀ k : BuildingKey, (lookupQty db.buildingStock k).isSome →
        (lookupQty db'.buildingStock k).isSome) := by
  obtain ⟨c, b, hc, hb, hq, hled, hcase⟩ := apply_transaction_ok h
  have frame :
      ∀ (gv bv : Int),
        db'.globalStock = setQty (getOrCreate db.globalStock (c, tx.onBalance)).1
          (c, tx.onBalance) gv →
        db'.buildingStock = setQty (getOrCreate db.buildingStock (b, c, tx.onBalance)).1
          (b, c, tx.onBalance) bv →
        (∃ c' b', tx.cartridge = some c' ∧ tx.building = some b' ∧
          db'.ledger = db.ledger ∧
          (∀ k : GlobalKey, k ≠ (c', tx.onBalance) →
            lookupQty db'.globalStock k = lookupQty db.globalStock k) ∧
          (∀ k : BuildingKey, k ≠ (b', c', tx.onBalance) →
            lookupQty db'.buildingStock k = lookupQty db.buildingStock k) ∧
          (lookupQty db'.globalStock (c', tx.onBalance)).isSome ∧
          (lookupQty db'.buildingStock (b', c', tx.onBalance)).isSome ∧
          (∀ k : GlobalKey, (lookupQty db.globalStock k).isSome →
            (lookupQty db'.globalStock k).isSome) ∧
          (∀ k : BuildingKey, (lookupQty db.buildingStock k).isSome →
            (lookupQty db'.buildingStock k).isSome)) := by
    intro gv bv hg hbs
    refine ⟨c, b, hc, hb, hled, ?_, ?_, ?_, ?_, ?_, ?_⟩
    · intro k hk
      rw [hg, lookupQty_update_other _ _ _ _ hk]
    · intro k hk
      rw [hbs, lookupQty_update_other _ _ _ _ hk]
    · rw [hg, lookupQty_update_self]
      rfl
    · rw [hbs, lookupQty_update_self]
      rfl
    · intro k hk
      by_cases hkk : k = ((c, tx.onBalance) : GlobalKey)
      · rw [hkk, hg, lookupQty_update_self]
        rfl
      · rw [hg, lookupQty_update_other _ _ _ _ hkk]
        exact hk
    · intro k hk
      by_cases hkk : k = ((b, c, tx.onBalance) : BuildingKey)
      · rw [hkk, hbs, lookupQty_update_self]
        rfl
      · rw [hbs, lookupQty_update_other _ _ _ _ hkk]
        exact hk
  rcases hcase with ⟨_, hg, hbs, _⟩ | ⟨_, _, _, hg, hbs, _⟩
  · exact frame _ _ hg hbs
  · exact frame _ _ hg hbs

theorem C10_frame_property_witness :
    ∃ c b, (some 1 : Option Nat) = some c ∧ (some 1 : Option Nat) = some b ∧
      ([] : List Tx) = [] ∧
      (∀ k : GlobalKey, k ≠ (c, false) →
        lookupQty [((2, false), 7), ((1, false), 10)] k =
          lookupQty [((2, false), 7)] k) ∧
      (∀ k : BuildingKey, k ≠ (b, c, false) →
        lookupQty [((1, 1, false), 10)] k = lookupQty ([] : List (BuildingKey × Int)) k) ∧
      (lookupQty [((2, false), 7), ((1, false), 10)] (c, false)).isSome ∧
      (lookupQty [((1, 1, false), 10)] (b, c, false)).isSome ∧
      (∀ k : GlobalKey, (lookupQty [((2, false), 7)] k).isSome →
        (lookupQty [((2, false), 7), ((1, false), 10)] k).isSome) ∧
      (∀ k : BuildingKey, (lookupQty ([] : List (BuildingKey × Int)) k).isSome →
        (lookupQty [((1, 1, false), 10)] k).isSome) :=
  C10_frame_property ⟨[((2, false), 7)], [], []⟩ ⟨1, .tIN, some 1, some 1, 10, false⟩
    ⟨0, 10, 0, 10⟩ ⟨[((2, false), 7), ((1, false), 10)], [((1, 1, false), 10)], []⟩ rfl

theorem lookupQty_isSome_of_mem {κ : Type} [DecidableEq κ] {t : List (κ × Int)}
    {e : κ × Int} (h : e ∈ t) : (lookupQty t e.1).isSome := by
  induction t with
  | nil => simp at h
  | cons e0 rest ih =>
    by_cases hk : e0.1 = e.1
    · simp [lookupQty, hk]
    · rcases List.mem_cons.mp h with h' | h'
      · rw [h'] at hk
        exact absurd rfl hk
      · simp only [lookupQty, if_neg hk]
        exact ih h'

/-- `_diff` of a snapshot against itself reports no added, removed or
changed rows (given the tables' unique-key constraints). -/
theorem diffStats_self {κ : Type} [DecidableEq κ] {t : List (κ × Int)}
    (hn : keysNodup t) : diffStats t t = ⟨0, 0, 0⟩ := by
  have hnone : (t.filter (fun e => (lookupQty t e.1).isNone)).length = 0 := by
    rw [List.length_eq_zero, List.filter_eq_nil_iff]
    intro e he hbad
    have hs := lookupQty_isSome_of_mem he
    rw [Option.isNone_iff_eq_none] at hbad
    rw [hbad] at hs
    exact absurd hs (by simp)
  have hch : (t.filter (fun e =>
      match lookupQty t e.1 with
      | some q => q != e.2
      | none => false)).length = 0 := by
    rw [List.length_eq_zero, List.filter_eq_nil_iff]
    intro e he hbad
    have hl : lookupQty t e.1 = some e.2 :=
      lookupQty_of_nodup_mem hn (by rwa [Prod.mk.eta])
    rw [hl] at hbad
    simp at hbad
  unfold diffStats
  rw [hnone, hch]

/-- A non-trivial live rebuild succeeds exactly with the replayed state
and the diff of the old snapshots against it. -/
theorem rebuild_live_eq {db d0 : DB} (hne : ¬db.ledger.isEmpty)
    (hrep : replay (clearAggregates db) db.ledger = .ok d0) :
    rebuild db false = .ok (some ⟨diffStats db.globalStock d0.globalStock,
      diffStats db.buildingStock d0.buildingStock⟩, d0) := by
  unfold rebuild
  rw [if_neg hne, hrep]
  exact rfl

/-- **C6** — Rebuild idempotence: if a live (non-dry-run) rebuild
succeeds, immediately rebuilding again (no new ledger entries) returns
the same aggregate state, and — whenever the first run produced a diff
report at all (non-empty ledger) — the second run's report counts zero
added rows, zero removed rows and zero quantity-changed rows in both
tables. -/
theorem C6_rebuild_idempotent (db : DB) (r1 : Option RebuildReport) (db1 : DB)
    (h : rebuild db false = .ok (r1, db1)) :
    rebuild db1 false =
      .ok (r1.map (fun _ => (⟨⟨0, 0, 0⟩, ⟨0, 0, 0⟩⟩ : RebuildReport)), db1) := by
  unfold rebuild at h
  by_cases hemp : db.ledger.isEmpty
  · rw [if_pos hemp] at h
    rw [Except.ok.injEq, Prod.mk.injEq] at h
    obtain ⟨hr, hdb⟩ := h
    rw [← hr, ← hdb]
    unfold rebuild
    rw [if_pos hemp]
    rfl
  · rw [if_neg hemp] at h
    cases hrep : replay (clearAggregates db) db.ledger with
    | error e => rw [hrep] at h; exact absurd h (by simp)
    | ok d0 =>
      rw [hrep] at h
      have h' : (Except.ok (some (⟨diffStats db.globalStock d0.globalStock,
          diffStats db.buildingStock d0.buildingStock⟩ : RebuildReport), d0) :
          Except (Nat × TxError) (Option RebuildReport × DB)) = .ok (r1, db1) := h
      rw [Except.ok.injEq, Prod.mk.injEq] at h'
      obtain ⟨hr, hdb⟩ := h'
      have hled : db1.ledger = db.ledger := by
        rw [← hdb]
        exact (replay_ledger_eq hrep).trans rfl
      have hclear : clearAggregates db1 = clearAggregates db := by
        unfold clearAggregates
        rw [DB.mk.injEq]
        exact ⟨rfl, rfl, hled⟩
      have hnodup :=
        reachable_keysNodup (reachable_replay (Reachable.empty db.ledger) hrep)
      rw [hdb] at hnodup
      have hrep1 : replay (clearAggregates db1) db1.ledger = .ok db1 := by
        rw [hclear, hled, hrep, hdb]
      have hne1 : ¬db1.ledger.isEmpty := by
        rw [hled]
        exact hemp
      rw [rebuild_live_eq hne1 hrep1, diffStats_self hnodup.1, diffStats_self hnodup.2,
        ← hr]
      rfl

theorem C6_rebuild_idempotent_witness :
    rebuild ⟨[((1, false), 10)], [((1, 1, false), 10)],
        [⟨1, .tIN, some 1, some 1, 10, false⟩]⟩ false =
      .ok (some ⟨⟨0, 0, 0⟩, ⟨0, 0, 0⟩⟩,
        ⟨[((1, false), 10)], [((1, 1, false), 10)],
          [⟨1, .tIN, some 1, some 1, 10, false⟩]⟩) :=
  C6_rebuild_idempotent ⟨[], [], [⟨1, .tIN, some 1, some 1, 10, false⟩]⟩
    (some ⟨⟨1, 0, 0⟩, ⟨1, 0, 0⟩⟩)
    ⟨[((1, false), 10)], [((1, 1, false), 10)],
      [⟨1, .tIN, some 1, some 1, 10, false⟩]⟩ rfl

/-- Inversion of a failed replay: the loop stops at the first ledger
entry whose `apply_transaction` fails, surfacing that entry's `id`, with
every earlier entry applied successfully up to that point. -/
theorem replay_error_cases {L : List Tx} {s : DB} {i : Nat} {e : TxError}
    (h : replay s L = .error (i, e)) :
    ∃ pre tx post mid, L = pre ++ tx :: post ∧ tx.id = i ∧
      replay s pre = .ok mid ∧ apply_transaction mid tx = .error e := by
  induction L generalizing s with
  | nil => simp [replay] at h
  | cons tx rest ih =>
    simp only [replay] at h
    cases happ : apply_transaction s tx with
    | error e0 =>
      rw [happ] at h
      rw [Except.error.injEq, Prod.mk.injEq] at h
      exact ⟨[], tx, rest, s, rfl, h.1, rfl, by rw [happ, h.2]⟩
    | ok p =>
      rw [happ] at h
      obtain ⟨pre, tx1, post, mid, hL, hid, hpre, happ1⟩ := ih h
      exact ⟨tx :: pre, tx1, post, mid, by rw [hL]; rfl, hid,
        by simp only [replay]; rw [happ]; exact hpre, happ1⟩

/-- **C7** — Rebuild failure semantics: the rebuild replays the ledger
through `apply_transaction` exactly as at ingestion time, and if it
fails, the surfaced error carries the `id` of the offending ledger
entry: the entry at which the replay stopped, every earlier entry having
applied successfully.  The `.error` result of `rebuild` carries no
state — the whole atomic unit rolls back and both aggregate tables are
left exactly as before the rebuild started. -/
theorem C7_rebuild_failure_aborts (db : DB) (dr : Bool) (i : Nat) (e : TxError)
    (h : rebuild db dr = .error (i, e)) :
    ∃ pre tx post mid, db.ledger = pre ++ tx :: post ∧ tx.id = i ∧
      replay (clearAggregates db) pre = .ok mid ∧
      apply_transaction mid tx = .error e := by
  unfold rebuild at h
  by_cases hemp : db.ledger.isEmpty
  · rw [if_pos hemp] at h
    exact absurd h (by simp)
  · rw [if_neg hemp] at h
    cases hrep : replay (clearAggregates db) db.ledger with
    | error p =>
      rw [hrep] at h
      rw [Except.error.injEq] at h
      rw [h] at hrep
      exact replay_error_cases hrep
    | ok d0 =>
      rw [hrep] at h
      cases dr with
      | false =>
        have h' : (Except.ok (some (⟨diffStats db.globalStock d0.globalStock,
            diffStats db.buildingStock d0.buildingStock⟩ : RebuildReport), d0) :
            Except (Nat × TxError) (Option RebuildReport × DB)) = .error (i, e) := h
        exact absurd h' (by simp)
      | true =>
        have h' : (Except.ok (some (⟨diffStats db.globalStock d0.globalStock,
            diffStats db.buildingStock d0.buildingStock⟩ : RebuildReport), db) :
            Except (Nat × TxError) (Option RebuildReport × DB)) = .error (i, e) := h
        exact absurd h' (by simp)

theorem C7_rebuild_failure_aborts_witness :
    ∃ pre tx post mid,
      [(⟨5, .tOUT, some 1, some 1, 4, false⟩ : Tx)] = pre ++ tx :: post ∧
      tx.id = 5 ∧
      replay (clearAggregates ⟨[((1, false), 100)], [],
        [⟨5, .tOUT, some 1, some 1, 4, false⟩]⟩) pre = .ok mid ∧
      apply_transaction mid ⟨5, .tOUT, some 1, some 1, 4, false⟩ =
        .error (.insufficientGlobal 0 4) := by
  have hmain := C7_rebuild_failure_aborts
    ⟨[((1, false), 100)], [], [⟨5, .tOUT, some 1, some 1, 4, false⟩]⟩ false 5
    (.insufficientGlobal 0 4) rfl
  obtain ⟨pre, tx, post, mid, hL, hid, hpre, happ⟩ := hmain
  have htx : tx = ⟨5, .tOUT, some 1, some 1, 4, false⟩ := by
    cases pre with
    | nil => exact (List.cons.injEq .. ▸ hL.symm).1
    | cons a as => simp at hL
  exact ⟨pre, tx, post, mid, hL, hid, hpre, htx ▸ happ⟩

/-- The signed effect of one ledger entry on a running quantity:
`+qty` for `IN`, `-qty` for `OUT`. -/
def txAmount (tx : Tx) : Int :=
  match tx.txType with
  | .tIN => tx.qty
  | .tOUT => -tx.qty

/-- Whether a transaction addresses the `GlobalStock` row keyed `k`. -/
def touchesG (k : GlobalKey) (tx : Tx) : Bool :=
  tx.cartridge == some k.1 && tx.onBalance == k.2

/-- Whether a transaction addresses the `BuildingStock` row keyed `k`. -/
def touchesB (k : BuildingKey) (tx : Tx) : Bool :=
  tx.building == some k.1 && tx.cartridge == some k.2.1 && tx.onBalance == k.2.2

/-- Net contribution of one ledger entry to the `GlobalStock` row `k`. -/
def gDelta (k : GlobalKey) (tx : Tx) : Int :=
  if touchesG k tx then txAmount tx else 0

/-- Net contribution of one ledger entry to the `BuildingStock` row `k`. -/
def bDelta (k : BuildingKey) (tx : Tx) : Int :=
  if touchesB k tx then txAmount tx else 0

/-- How a row lookup evolves across a replay: an existing row is shifted
by the net amount; an absent row exists afterwards iff some entry
touched its key. -/
def shiftQty (o : Option Int) (touched : Bool) (a : Int) : Option Int :=
  match o with
  | some q => some (q + a)
  | none => if touched then some a else none

theorem touchesG_of_eq {tx : Tx} {c : Nat} (hc : tx.cartridge = some c) :
    touchesG (c, tx.onBalance) tx = true := by
  simp [touchesG, hc]

theorem touchesG_of_ne {k : GlobalKey} {tx : Tx} {c : Nat}
    (hc : tx.cartridge = some c) (hk : k ≠ ((c, tx.onBalance) : GlobalKey)) :
    touchesG k tx = false := by
  rw [← Bool.not_eq_true]
  intro habs
  simp only [touchesG, hc, Bool.and_eq_true, beq_iff_eq, Option.some.injEq] at habs
  exact hk (Prod.ext habs.1.symm habs.2.symm)

theorem touchesB_of_eq {tx : Tx} {c b : Nat} (hc : tx.cartridge = some c)
    (hb : tx.building = some b) :
    touchesB (b, c, tx.onBalance) tx = true := by
  simp [touchesB, hc, hb]

theorem touchesB_of_ne {k : BuildingKey} {tx : Tx} {c b : Nat}
    (hc : tx.cartridge = some c) (hb : tx.building = some b)
    (hk : k ≠ ((b, c, tx.onBalance) : BuildingKey)) :
    touchesB k tx = false := by
  rw [← Bool.not_eq_true]
  intro habs
  simp only [touchesB, hc, hb, Bool.and_eq_true, beq_iff_eq, Option.some.injEq] at habs
  exact hk (Prod.ext habs.1.1.symm (Prod.ext habs.1.2.symm habs.2.symm))

/-- A successful replay shifts each `GlobalStock` lookup by the net sum
of the entries touching its key, creating the row iff some entry
touched it. -/
theorem replay_lookup_global {L : List Tx} {s d : DB} (h : replay s L = .ok d)
    (k : GlobalKey) :
    lookupQty d.globalStock k =
      shiftQty (lookupQty s.globalStock k) (L.any (touchesG k))
        ((L.map (gDelta k)).sum) := by
  induction L generalizing s with
  | nil =>
    simp only [replay, Except.ok.injEq] at h
    subst h
    cases hl : lookupQty s.globalStock k <;>
      simp [shiftQty, List.any_nil, List.map_nil, List.sum_nil]
  | cons tx rest ih =>
    simp only [replay] at h
    cases happ : apply_transaction s tx with
    | error e => rw [happ] at h; exact absurd h (by simp)
    | ok p =>
      rw [happ] at h
      obtain ⟨c, b, hc, hb, hq, hled, hcase⟩ :=
        apply_transaction_ok (show apply_transaction s tx = .ok (p.1, p.2) by rw [happ])
      have hih := ih h
      simp only [List.any_cons, List.map_cons, List.sum_cons]
      by_cases hkey : k = ((c, tx.onBalance) : GlobalKey)
      · subst hkey
        have htouch := touchesG_of_eq hc
        have hdelta : gDelta (c, tx.onBalance) tx = txAmount tx := by
          simp [gDelta, htouch]
        have hlk : lookupQty p.2.globalStock (c, tx.onBalance) =
            some (qtyOr0 s.globalStock (c, tx.onBalance) + txAmount tx) := by
          rcases hcase with ⟨htype, hg, _, _⟩ | ⟨htype, _, _, hg, _, _⟩
          · rw [hg, lookupQty_update_self]
            congr 1
            simp [txAmount, htype]
          · rw [hg, lookupQty_update_self]
            congr 1
            simp only [txAmount, htype]
            ring
        rw [hih, hlk, htouch, hdelta]
        simp only [Bool.true_or]
        unfold qtyOr0
        cases hl : lookupQty s.globalStock (c, tx.onBalance) with
        | none => simp only [shiftQty, Option.getD_none, Option.getD_some,
            Option.some.injEq, if_true]; try ring
        | some q => simp only [shiftQty, Option.getD_none, Option.getD_some,
            Option.some.injEq, if_true]; try ring
      · have htouch : touchesG k tx = false := touchesG_of_ne hc hkey
        have hdelta : gDelta k tx = 0 := by simp [gDelta, htouch]
        have hlk : lookupQty p.2.globalStock k = lookupQty s.globalStock k := by
          rcases hcase with ⟨_, hg, _, _⟩ | ⟨_, _, _, hg, _, _⟩ <;>
            rw [hg, lookupQty_update_other _ _ _ _ hkey]
        rw [hih, hlk, htouch, hdelta]
        simp only [Bool.false_or, zero_add]

/-- A successful replay shifts each `BuildingStock` lookup by the net
sum of the entries touching its key, creating the row iff some entry
touched it. -/
theorem replay_lookup_building {L : List Tx} {s d : DB} (h : replay s L = .ok d)
    (k : BuildingKey) :
    lookupQty d.buildingStock k =
      shiftQty (lookupQty s.buildingStock k) (L.any (touchesB k))
        ((L.map (bDelta k)).sum) := by
  induction L generalizing s with
  | nil =>
    simp only [replay, Except.ok.injEq] at h
    subst h
    cases hl : lookupQty s.buildingStock k <;>
      simp [shiftQty, List.any_nil, List.map_nil, List.sum_nil]
  | cons tx rest ih =>
    simp only [replay] at h
    cases happ : apply_transaction s tx with
    | error e => rw [happ] at h; exact absurd h (by simp)
    | ok p =>
      rw [happ] at h
      obtain ⟨c, b, hc, hb, hq, hled, hcase⟩ :=
        apply_transaction_ok (show apply_transaction s tx = .ok (p.1, p.2) by rw [happ])
      have hih := ih h
      simp only [List.any_cons, List.map_cons, List.sum_cons]
      by_cases hkey : k = ((b, c, tx.onBalance) : BuildingKey)
      · subst hkey
        have htouch := touchesB_of_eq hc hb
        have hdelta : bDelta (b, c, tx.onBalance) tx = txAmount tx := by
          simp [bDelta, htouch]
        have hlk : lookupQty p.2.buildingStock (b, c, tx.onBalance) =
            some (qtyOr0 s.buildingStock (b, c, tx.onBalance) + txAmount tx) := by
          rcases hcase with ⟨htype, _, hbs, _⟩ | ⟨htype, _, _, _, hbs, _⟩
          · rw [hbs, lookupQty_update_self]
            congr 1
            simp [txAmount, htype]
          · rw [hbs, lookupQty_update_self]
            congr 1
            simp only [txAmount, htype]
            ring
        rw [hih, hlk, htouch, hdelta]
        simp only [Bool.true_or]
        unfold qtyOr0
        cases hl : lookupQty s.buildingStock (b, c, tx.onBalance) with
        | none => simp only [shiftQty, Option.getD_none, Option.getD_some,
            Option.some.injEq, if_true]; try ring
        | some q => simp only [shiftQty, Option.getD_none, Option.getD_some,
            Option.some.injEq, if_true]; try ring
      · have htouch : touchesB k tx = false := touchesB_of_ne hc hb hkey
        have hdelta : bDelta k tx = 0 := by simp [bDelta, htouch]
        have hlk : lookupQty p.2.buildingStock k = lookupQty s.buildingStock k := by
          rcases hcase with ⟨_, _, hbs, _⟩ | ⟨_, _, _, _, hbs, _⟩ <;>
            rw [hbs, lookupQty_update_other _ _ _ _ hkey]
        rw [hih, hlk, htouch, hdelta]
        simp only [Bool.false_or, zero_add]

/-- **C8** — Order-independence of final totals: for any two orderings
of the same multiset of ledger entries, if replaying each ordering from
empty aggregates succeeds on every entry, both replays produce the same
final `GlobalStock` and `BuildingStock` contents (every key maps to the
same quantity, with the same set of rows present); replay order can only
affect whether an intermediate insufficiency check trips, not the final
sums. -/
theorem C8_order_independence (L1 L2 : List Tx) (s1 s2 d1 d2 : DB)
    (hperm : L1.Perm L2)
    (hs1g : s1.globalStock = []) (hs1b : s1.buildingStock = [])
    (hs2g : s2.globalStock = []) (hs2b : s2.buildingStock = [])
    (h1 : replay s1 L1 = .ok d1) (h2 : replay s2 L2 = .ok d2) :
    (∀ k : GlobalKey, lookupQty d1.globalStock k = lookupQty d2.globalStock k) ∧
    (∀ k : BuildingKey, lookupQty d1.buildingStock k = lookupQty d2.buildingStock k) := by
  refine ⟨fun k => ?_, fun k => ?_⟩
  · rw [replay_lookup_global h1 k, replay_lookup_global h2 k, hs1g, hs2g]
    have hsum : (L1.map (gDelta k)).sum = (L2.map (gDelta k)).sum :=
      (hperm.map (gDelta k)).sum_eq
    have hany : L1.any (touchesG k) = L2.any (touchesG k) := by
      rw [Bool.eq_iff_iff, List.any_eq_true, List.any_eq_true]
      exact ⟨fun ⟨x, hx, hpx⟩ => ⟨x, hperm.mem_iff.mp hx, hpx⟩,
             fun ⟨x, hx, hpx⟩ => ⟨x, hperm.mem_iff.mpr hx, hpx⟩⟩
    rw [hsum, hany]
  · rw [replay_lookup_building h1 k, replay_lookup_building h2 k, hs1b, hs2b]
    have hsum : (L1.map (bDelta k)).sum = (L2.map (bDelta k)).sum :=
      (hperm.map (bDelta k)).sum_eq
    have hany : L1.any (touchesB k) = L2.any (touchesB k) := by
      rw [Bool.eq_iff_iff, List.any_eq_true, List.any_eq_true]
      exact ⟨fun ⟨x, hx, hpx⟩ => ⟨x, hperm.mem_iff.mp hx, hpx⟩,
             fun ⟨x, hx, hpx⟩ => ⟨x, hperm.mem_iff.mpr hx, hpx⟩⟩
    rw [hsum, hany]

theorem C8_order_independence_witness :
    (∀ k : GlobalKey,
      lookupQty [((1, false), 5), ((2, false), 3)] k =
        lookupQty [((2, false), 3), ((1, false), 5)] k) ∧
    (∀ k : BuildingKey,
      lookupQty [((1, 1, false), 5), ((1, 2, false), 3)] k =
        lookupQty [((1, 2, false), 3), ((1, 1, false), 5)] k) :=
  C8_order_independence
    [⟨1, .tIN, some 1, some 1, 5, false⟩, ⟨2, .tIN, some 2, some 1, 3, false⟩]
    [⟨2, .tIN, some 2, some 1, 3, false⟩, ⟨1, .tIN, some 1, some 1, 5, false⟩]
    ⟨[], [], []⟩ ⟨[], [], []⟩
    ⟨[((1, false), 5), ((2, false), 3)], [((1, 1, false), 5), ((1, 2, false), 3)], []⟩
    ⟨[((2, false), 3), ((1, false), 5)], [((1, 2, false), 3), ((1, 1, false), 5)], []⟩
    (by decide) rfl rfl rfl rfl rfl rfl

example :
    apply_transaction ⟨[], [], []⟩
      ⟨1, .tIN, some 1, some 1, 10, false⟩ =
    .ok (⟨0, 10, 0, 10⟩, ⟨[((1, false), 10)], [((1, 1, false), 10)], []⟩) := rfl

example :
    apply_transaction ⟨[((1, false), 5)], [((1, 1, false), 3)], []⟩
      ⟨2, .tOUT, some 1, some 1, 4, false⟩ =
    .error (.insufficientBuilding 3 4) := rfl

end SchoolPrinters
